import Mathlib

/-!
# Verification of the bench-build benchmarking harness core

Shallow embedding of `tools/bench-build.py`: the Run/Sample persistence
layer (`DB`), the benchmark lifecycle executor (`Profiler`), the dry-run
enumerator (`Lister`), the name filter (`Filterer`), and the reporter
(`DB.dump_runs`, `ns_to_ms`).

Modelling conventions:
* The sqlite database is a pure state `DBState`: the `run` table as a list
  of `RunRow` (insertion order) and the `sample` table as a list of
  `(run_id, duration_ns)` pairs (insertion order).  Records are never
  deleted, so sqlite's rowid assignment for `INTEGER PRIMARY KEY` is
  `max existing id + 1` (`1` for an empty table); `create_run` models
  `cursor.lastrowid` accordingly.
* SQL queries are translated clause by clause: `WHERE id IN (...)` becomes
  a membership filter (sqlite accepts an *empty* `IN ()` list, which
  matches no row), and `SELECT MAX(id) ... GROUP BY key` keeps, for each
  identity key, exactly the rows whose id is maximal within the key group.
* The python `collections.defaultdict(list)` grouping loop of
  `DB._load_runs_with_filter` is embedded literally as a `foldl`
  (`groupSamples`), appending each duration to its run id's bucket.
* Stateful methods thread their state explicitly; printing functions
  return the list of printed lines.
* Lifecycle hooks may raise: each hook is modelled as an `Except String`
  computation, and the k-th invocation of a hook may behave differently
  (the argument is the 0-based iteration index across warmup + measured
  iterations).  `run_timed`'s measured wall-clock duration (the code reads
  `time.monotonic_ns()` immediately before and after the call, so only
  `run_timed` is timed) is modelled as the `ℕ` value it returns.
* `ns / 1e6` in python is binary64 floating point: the int is converted to
  the nearest double (ties to even) and then divided by the exact double
  `1e6 = 10^6` with a correctly rounded result.  `floatRound` models
  round-to-nearest-even binary64 rounding of a non-negative rational in
  the normal finite range (the harness's magnitudes are far below the
  `2^1024` overflow threshold and above the subnormal range).
-/

/-- Models the environment-provided `socket.gethostname()` (`HOSTNAME`
global in the source).  No claim depends on its value. -/
def HOSTNAME : String := "myhostname"

/-- One row of the `run` table: `id INTEGER PRIMARY KEY` plus the four
identity columns.  `created_at` is omitted: it is written but never read
back by any load operation (`SELECT` lists id and identity columns only). -/
structure RunRow where
  id : ℕ
  hostname : String
  language : String
  toolchain_label : String
  benchmark_name : String
deriving DecidableEq, Repr

/-- The identity key of a run row: (hostname, language, toolchain label,
benchmark name) — the `GROUP BY` key of `load_latest_runs`. -/
def RunRow.key (r : RunRow) : String × String × String × String :=
  (r.hostname, r.language, r.toolchain_label, r.benchmark_name)

/-- The sqlite database state: the `run` table and the `sample` table,
each in insertion order. -/
structure DBState where
  runs : List RunRow
  samples : List (ℕ × ℕ)
deriving DecidableEq, Repr

/-- The freshly created database (`CREATE TABLE IF NOT EXISTS` on a new
file or `:memory:`). -/
def emptyDB : DBState := ⟨[], []⟩

/-- Largest id present in the `run` table (0 when empty). -/
def maxRunId (db : DBState) : ℕ :=
  db.runs.foldr (fun r m => max r.id m) 0

/-- Models `DB.create_run`: INSERT a row into `run`; sqlite assigns the rowid
`max existing id + 1` and `cursor.lastrowid` returns it. -/
def create_run (db : DBState) (hostname language toolchain_label benchmark_name : String) :
    ℕ × DBState :=
  let newId := maxRunId db + 1
  (newId,
   { runs := db.runs ++ [⟨newId, hostname, language, toolchain_label, benchmark_name⟩],
     samples := db.samples })

/-- Models `DB.add_sample_to_run`: INSERT a row into `sample`.  The schema
declares no foreign key (and sqlite does not enforce foreign keys by
default), so the insert succeeds for *any* `run_id`, existing or not. -/
def add_sample_to_run (db : DBState) (run_id : ℕ) (duration_ns : ℕ) : DBState :=
  { db with samples := db.samples ++ [(run_id, duration_ns)] }

/-- The `run_samples = collections.defaultdict(list)` grouping loop of
`DB._load_runs_with_filter`: each `(run_id, duration_ns)` row appends
`duration_ns` to the bucket of `run_id`; lookup of an absent key is `[]`. -/
def groupSamples (rows : List (ℕ × ℕ)) : ℕ → List ℕ :=
  rows.foldl (fun acc row =>
    fun r => if r = row.1 then acc r ++ [row.2] else acc r) (fun _ => [])

/-- One `DB.Run` record as returned by the load operations: the row
columns plus the attached tuple of sample durations. -/
structure Run where
  id : ℕ
  hostname : String
  language : String
  toolchain_label : String
  benchmark_name : String
  samples : List ℕ
deriving DecidableEq, Repr

/-- Identity key of a loaded run. -/
def Run.key (r : Run) : String × String × String × String :=
  (r.hostname, r.language, r.toolchain_label, r.benchmark_name)

/-- The `DB.Run(...)` construction in `_load_runs_with_filter`: pair a
selected row with `run_samples[run_id]`. -/
def mkRun (lookup : ℕ → List ℕ) (row : RunRow) : Run :=
  ⟨row.id, row.hostname, row.language, row.toolchain_label, row.benchmark_name,
   lookup row.id⟩

/-- Models `DB.load_all_runs`: no WHERE clause on either query. -/
def load_all_runs (db : DBState) : List Run :=
  db.runs.map (mkRun (groupSamples db.samples))

/-- Models `DB.load_latest_runs`: `SELECT MAX(id), ... FROM run GROUP BY
hostname, language, toolchain_label, benchmark_name`; the samples query
has no WHERE clause.  For each identity-key group the result keeps the
rows of maximal id within the group (one per group when ids are unique,
as they are for sqlite rowids). -/
def load_latest_runs (db : DBState) : List Run :=
  (db.runs.filter (fun r =>
      db.runs.all (fun r' => !(r'.key == r.key) || r'.id ≤ r.id))).map
    (mkRun (groupSamples db.samples))

/-- Models `DB.load_runs_by_ids`: both queries filter with `IN (?, ..., ?)`, one
`?` per requested id.  For an empty id sequence the generated SQL is
`IN ()`, which sqlite accepts and which matches no row. -/
def load_runs_by_ids (db : DBState) (run_ids : List ℕ) : List Run :=
  let lookup := groupSamples (db.samples.filter (fun s => run_ids.contains s.1))
  (db.runs.filter (fun r => run_ids.contains r.id)).map (mkRun lookup)

/-- The sample durations belonging to a given run id, in table order:
the specification-side description of what a load operation must attach. -/
def samplesOf (db : DBState) (run_id : ℕ) : List ℕ :=
  (db.samples.filter (fun s => s.1 = run_id)).map Prod.snd

/-! ## Binary64 model for `ns / 1e6`

`ns_to_ms(ns) = int(math.ceil(ns / 1e6))`.  CPython converts the int `ns`
to the nearest binary64 double (round to nearest, ties to even), then
divides by the exact double `1e6 = 10^6` with a correctly rounded result;
`math.ceil` then takes the exact mathematical ceiling of the resulting
double.  `avg(xs) = sum(xs) / len(xs)` is CPython int/int true division,
which produces the correctly rounded double of the exact quotient. -/

/-- Round a rational to an integer, round-half-to-even (the IEEE 754
default tie rule, used both by int→double conversion and by correctly
rounded double arithmetic). -/
def rnde (x : ℚ) : ℤ :=
  if x - ⌊x⌋ < 1/2 then ⌊x⌋
  else if x - ⌊x⌋ = 1/2 then (if ⌊x⌋ % 2 = 0 then ⌊x⌋ else ⌊x⌋ + 1)
  else ⌊x⌋ + 1

/-- Floor of base-2 logarithm of a positive rational. -/
def ratFloorLog2 (q : ℚ) : ℤ :=
  if 1 ≤ q then (Nat.log 2 ⌊q⌋.toNat : ℤ) else -(Nat.clog 2 ⌈q⁻¹⌉.toNat : ℤ)

/-- Round a non-negative rational to the nearest binary64 double (ties to
even), as an exact rational: the significand grid at exponent
`e = ⌊log₂ q⌋` has spacing `2^(e-52)`.  Valid for the normal finite
range; the harness's values (nanosecond counts and their quotients by
`10^6`) are far from both the `2^1024` overflow threshold and the
subnormal range, and negative values never occur. -/
def floatRound (q : ℚ) : ℚ :=
  if q ≤ 0 then 0
  else (rnde (q * 2 ^ ((52 : ℤ) - ratFloorLog2 q)) : ℚ) * 2 ^ (ratFloorLog2 q - 52)

/-- Conversion `ns_to_ms` applied to a python float `x` (used by the `avg(ms)`
column, where `avg` has already produced a double): `x / 1e6` is a
correctly rounded double division, then `math.ceil` is exact. -/
def ns_to_ms_float (x : ℚ) : ℤ :=
  ⌈floatRound (x / 1000000)⌉

/-- Models `ns_to_ms(ns) = int(math.ceil(ns / 1e6))` on an int argument: `ns` is
first converted to the nearest double, then divided by `1e6`. -/
def ns_to_ms (ns : ℕ) : ℤ :=
  ns_to_ms_float (floatRound (ns : ℚ))

/-- Python `min` over a list of ints (the reporter only calls it on a
non-empty list; the `[]` value is junk). -/
def listMin : List ℕ → ℕ
  | [] => 0
  | x :: xs => xs.foldl Nat.min x

/-- Python `max` over a list of ints (the reporter only calls it on a
non-empty list; the `[]` value is junk). -/
def listMax : List ℕ → ℕ
  | [] => 0
  | x :: xs => xs.foldl Nat.max x

/-- Models `avg(xs) = sum(xs) / len(xs)`: CPython int/int true division returns
the correctly rounded double of the exact quotient (the reporter only
calls it on a non-empty list, so the zero denominator is unreachable). -/
def avgF (xs : List ℕ) : ℚ :=
  floatRound ((xs.sum : ℚ) / xs.length)

/-! ## Reporter (`DB.dump_runs`) -/

/-- A cell of the report table.  Python distinguishes int/float cells
(right-justified) from string cells (left-justified) with `isinstance`. -/
inductive Cell where
  | int (z : ℤ)
  | text (s : String)
deriving DecidableEq, Repr

/-- Python `str(cell)`. -/
def cellStr : Cell → String
  | .int z => toString z
  | .text s => s

/-- Python `str.ljust`. -/
def ljust (s : String) (w : ℕ) : String :=
  s ++ String.mk (List.replicate (w - s.length) ' ')

/-- Python `str.rjust`. -/
def rjust (s : String) (w : ℕ) : String :=
  String.mk (List.replicate (w - s.length) ' ') ++ s

/-- The header tuple `column_names` of `DB.dump_runs`. -/
def column_names : List String :=
  ["hostname", "lang", "toolchain", "benchmark", "min(ms)", "avg(ms)", "max(ms)"]

/-- One row tuple of `DB.dump_runs`: the four identity columns, then
min/avg/max of the samples converted to ms — or the `"---"` placeholder
cells when the run has no samples (`... if run.samples else "---"`). -/
def dump_row (run : Run) : List Cell :=
  [.text run.hostname, .text run.language, .text run.toolchain_label,
   .text run.benchmark_name] ++
  (if run.samples.isEmpty then [Cell.text "---", Cell.text "---", Cell.text "---"]
   else [Cell.int (ns_to_ms (listMin run.samples)),
         Cell.int (ns_to_ms_float (avgF run.samples)),
         Cell.int (ns_to_ms (listMax run.samples))])

/-- Computes `column_widths`: per column, the max of the rendered cell lengths and
the header length. -/
def columnWidths (rows : List (List Cell)) : List ℕ :=
  (List.range column_names.length).map (fun i =>
    (rows.map (fun row => (cellStr (row.getD i (Cell.text ""))).length)).foldr
      max ((column_names.getD i "").length))

/-- Models `format_cell`: numbers right-justified, text left-justified, to the
column's width. -/
def formatCell (widths : List ℕ) (i : ℕ) (c : Cell) : String :=
  match c with
  | .int z => rjust (toString z) (widths.getD i 0)
  | .text s => ljust s (widths.getD i 0)

/-- Models `print_row`: the cells of one row, formatted and joined by `" | "`. -/
def printRow (widths : List ℕ) (cells : List Cell) : String :=
  " | ".intercalate (cells.enum.map (fun ic => formatCell widths ic.1 ic.2))

/-- Models `DB.dump_runs`: the printed lines — header row first (its cells are
strings, hence left-justified), then one line per run in input order. -/
def dump_runs (runs : List Run) : List String :=
  let rows := runs.map dump_row
  let widths := columnWidths rows
  printRow widths (column_names.map Cell.text) :: rows.map (printRow widths)

/-! ## Benchmark contract and executors -/

/-- A lifecycle event: the invocation of one hook of the `Benchmark`
contract.  An event is recorded at the moment the hook is *called*
(whether or not the call then raises). -/
inductive Event where
  | before_all_untimed
  | before_each_untimed
  | run_timed
  | after_each_untimed
  | after_all_untimed
deriving DecidableEq, Repr

/-- A benchmark behind the `Benchmark` contract: the three identity
fields, plus the behaviour of each hook.  A hook either returns or raises
(`Except String`); per-iteration hooks receive the 0-based index of the
iteration (warmup iterations first), so one benchmark instance may behave
differently across invocations (the real ones mutate files and run
external builds).  `run_timed k` returns the wall-clock duration, in
nanoseconds, that `time.monotonic_ns()` measures around the k-th timed
phase — non-negative by the monotonic-clock guarantee. -/
structure Benchmark where
  language : String
  toolchain_label : String
  name : String
  before_all_untimed : Except String Unit
  before_each_untimed : ℕ → Except String Unit
  run_timed : ℕ → Except String ℕ
  after_each_untimed : ℕ → Except String Unit
  after_all_untimed : Except String Unit

/-- Models `Benchmark.full_name`: `f"{language}, {toolchain_label}, {name}"`. -/
def Benchmark.full_name (b : Benchmark) : String :=
  b.language ++ ", " ++ b.toolchain_label ++ ", " ++ b.name

/-- The `Profiler` executor's own state: iteration counts and the run ids
recorded by this instance (`_run_ids`). -/
structure Profiler where
  warmup_iterations : ℕ
  iterations : ℕ
  run_ids : List ℕ
deriving DecidableEq, Repr

/-- Models `Profiler._profile_one`: `before_each_untimed()`, the timed
`run_timed()` call, `after_each_untimed()`; then, when a run id was given
(measured iteration), one Sample with the measured duration is written.
Returns the events in call order, the database state (earlier writes
persist even when a later hook raises — sqlite commits each insert), and
whether an exception propagates. -/
def profile_one (b : Benchmark) (k : ℕ) (run_id : Option ℕ) (db : DBState) :
    List Event × DBState × Except String Unit :=
  match b.before_each_untimed k with
  | .error e => ([.before_each_untimed], db, .error e)
  | .ok _ =>
    match b.run_timed k with
    | .error e => ([.before_each_untimed, .run_timed], db, .error e)
    | .ok d =>
      match b.after_each_untimed k with
      | .error e => ([.before_each_untimed, .run_timed, .after_each_untimed], db, .error e)
      | .ok _ =>
        ([.before_each_untimed, .run_timed, .after_each_untimed],
         (match run_id with
          | none => db
          | some rid => add_sample_to_run db rid d),
         .ok ())

/-- One of the two `for _ in range(n)` loops of `Profiler.profile`:
`cnt` remaining iterations starting at absolute iteration index `k`.
Stops at the first raising iteration, propagating its exception. -/
def profileLoop (b : Benchmark) (run_id : Option ℕ) (k cnt : ℕ) (db : DBState) :
    List Event × DBState × Except String Unit :=
  match cnt with
  | 0 => ([], db, .ok ())
  | c + 1 =>
    match profile_one b k run_id db with
    | (tr, db', .error e) => (tr, db', .error e)
    | (tr, db', .ok _) =>
      match profileLoop b run_id (k + 1) c db' with
      | (tr', db'', r) => (tr ++ tr', db'', r)

/-- Models `Profiler.profile`: create the Run (identity fields of the benchmark,
global `HOSTNAME`), record its id in `_run_ids`, then
`before_all_untimed()`, the warmup loop (no run id — durations
discarded), the measured loop (samples written to the created run), and
`after_all_untimed()`.  There is no `try`/`finally`: an exception in any
hook propagates immediately, skipping everything after it.  Returns the
events in call order, the final database state, the final profiler state
(the run id is recorded *before* any hook runs), and the propagated
exception if any. -/
def Profiler.profile (p : Profiler) (b : Benchmark) (db : DBState) :
    List Event × DBState × Profiler × Except String Unit :=
  let rid := (create_run db HOSTNAME b.language b.toolchain_label b.name).1
  let db1 := (create_run db HOSTNAME b.language b.toolchain_label b.name).2
  let p1 : Profiler := { p with run_ids := p.run_ids ++ [rid] }
  match b.before_all_untimed with
  | .error e => ([.before_all_untimed], db1, p1, .error e)
  | .ok _ =>
    match profileLoop b none 0 p.warmup_iterations db1 with
    | (trW, db2, .error e) => (.before_all_untimed :: trW, db2, p1, .error e)
    | (trW, db2, .ok _) =>
      match profileLoop b (some rid) p.warmup_iterations p.iterations db2 with
      | (trM, db3, .error e) =>
        (.before_all_untimed :: (trW ++ trM), db3, p1, .error e)
      | (trM, db3, .ok _) =>
        match b.after_all_untimed with
        | .error e =>
          (.before_all_untimed :: (trW ++ trM) ++ [.after_all_untimed], db3, p1, .error e)
        | .ok _ =>
          (.before_all_untimed :: (trW ++ trM) ++ [.after_all_untimed], db3, p1, .ok ())

/-- Models `Profiler.dump_results`: load exactly this instance's runs by id and
hand them to the reporter. -/
def Profiler.dump_results (p : Profiler) (db : DBState) : List String :=
  dump_runs (load_runs_by_ids db p.run_ids)

/-- The `Lister` enumerator's state: the full names recorded so far
(`_test_cases`). -/
structure Lister where
  test_cases : List String
deriving DecidableEq, Repr

/-- Models `Lister.profile`: record the benchmark's full name; no hook runs. -/
def Lister.profile (l : Lister) (b : Benchmark) : Lister :=
  ⟨l.test_cases ++ [b.full_name]⟩

/-- Models `Lister.dump_results`: the recorded names, one line each, in order. -/
def Lister.dump_results (l : Lister) : List String :=
  l.test_cases

/-- Models `re.search(pattern, name)` for the harness's patterns, which are
plain text (the CLI filter argument; no regex metacharacters): the search
succeeds iff the pattern occurs as a contiguous substring *anywhere* in
the name (not anchored — `re.search`, not `re.fullmatch`), and the empty
pattern matches every string (at position 0). -/
def re_search (pattern s : String) : Bool :=
  decide (pattern.data <:+: s.data)

/-- The `Filterer` decorator: the wrapped component's `profile` as a
state transformer (the source wraps either a `Profiler` or a `Lister`
behind the one `profile`/`dump_results` contract; `σ` is that inner
component's state, database included when it has one), plus the pattern. -/
structure Filterer (σ : Type) where
  profiler : Benchmark → σ → σ
  filter : String

/-- Models `Filterer.profile`: `if re.search(self._filter,
benchmark.full_name): self._profiler.profile(benchmark)` — delegate on a
match, do nothing otherwise. -/
def Filterer.profile {σ : Type} (f : Filterer σ) (b : Benchmark) (s : σ) : σ :=
  if re_search f.filter b.full_name then f.profiler b s else s

/-! ## Helper lemmas about the store -/

/-- The `defaultdict` grouping loop, unrolled: looking up a run id in the
grouped samples yields exactly the durations of that id's rows, in order. -/
theorem groupSamples_aux (rows : List (ℕ × ℕ)) :
    ∀ (acc : ℕ → List ℕ) (r : ℕ),
      rows.foldl (fun acc row =>
          fun x => if x = row.1 then acc x ++ [row.2] else acc x) acc r
        = acc r ++ (rows.filter (fun s => s.1 = r)).map Prod.snd := by
  induction rows with
  | nil => intro acc r; simp
  | cons a rows ih =>
    intro acc r
    rw [List.foldl_cons, ih]
    by_cases h : r = a.1
    · simp [h, List.filter_cons]
    · rw [if_neg h, List.filter_cons,
        if_neg (by simpa using fun hc : a.1 = r => h hc.symm)]

/-- Lookup `groupSamples rows r` is the filter of `rows` to run id `r`. -/
theorem groupSamples_eq (rows : List (ℕ × ℕ)) (r : ℕ) :
    groupSamples rows r = (rows.filter (fun s => s.1 = r)).map Prod.snd := by
  rw [groupSamples, groupSamples_aux]; rfl

/-- Every id in the `run` table is bounded by `maxRunId`. -/
theorem id_le_foldr_max (l : List RunRow) (r : RunRow) :
    r ∈ l → r.id ≤ l.foldr (fun r m => max r.id m) 0 := by
  induction l with
  | nil => intro h; cases h
  | cons a t ih =>
    intro h
    rcases List.mem_cons.mp h with h | h
    · subst h; exact le_max_left _ _
    · exact (ih h).trans (le_max_right _ _)

theorem id_le_maxRunId {db : DBState} {r : RunRow} (h : r ∈ db.runs) :
    r.id ≤ maxRunId db :=
  id_le_foldr_max db.runs r h

/-- Adding a list of samples to one run id, folded left as the Profiler's
measured loop does, appends the corresponding rows in order. -/
theorem foldl_add_sample (ds : List ℕ) (rid : ℕ) :
    ∀ db : DBState,
      ds.foldl (fun s d => add_sample_to_run s rid d) db
        = ⟨db.runs, db.samples ++ ds.map (fun d => (rid, d))⟩ := by
  induction ds with
  | nil => intro db; simp
  | cons d ds ih =>
    intro db
    rw [List.foldl_cons, ih]
    simp [add_sample_to_run]

/-- C9: In the result of each of the three load operations, every
returned Run carries as its samples exactly the sample rows whose run id
equals that Run's id, in table order — no Sample of another Run, no
duplication. -/
theorem load_ops_attach_exact_samples (db : DBState) (ids : List ℕ) :
    (∀ r ∈ load_all_runs db, r.samples = samplesOf db r.id) ∧
    (∀ r ∈ load_latest_runs db, r.samples = samplesOf db r.id) ∧
    (∀ r ∈ load_runs_by_ids db ids, r.samples = samplesOf db r.id) := by
  refine ⟨?_, ?_, ?_⟩
  · intro r hr
    rw [load_all_runs] at hr
    obtain ⟨row, hrow, rfl⟩ := List.mem_map.mp hr
    simpa [mkRun, samplesOf] using groupSamples_eq db.samples row.id
  · intro r hr
    rw [load_latest_runs] at hr
    obtain ⟨row, hrow, rfl⟩ := List.mem_map.mp hr
    simpa [mkRun, samplesOf] using groupSamples_eq db.samples row.id
  · intro r hr
    rw [load_runs_by_ids] at hr
    obtain ⟨row, hrow, rfl⟩ := List.mem_map.mp hr
    have hid : ids.contains row.id = true := by
      simpa using (List.mem_filter.mp hrow).2
    show groupSamples (db.samples.filter fun s => ids.contains s.1) row.id
      = samplesOf db row.id
    rw [groupSamples_eq, samplesOf]
    congr 1
    rw [List.filter_filter]
    have hmem : row.id ∈ ids := by simpa using hid
    refine List.filter_congr (fun s _ => ?_)
    by_cases hs : s.1 = row.id
    · simp [hs, hmem]
    · simp [hs]

/-- C10 (counterexample): with a non-empty store, `load_runs_by_ids` on
an *empty* id sequence builds `WHERE ... IN ()`, which sqlite accepts as
matching nothing — the call returns the empty list and raises no error,
and `dump_results` of a Profiler that profiled nothing succeeds,
printing only the header row. -/
theorem load_runs_by_ids_empty_counterexample :
    load_runs_by_ids ⟨[⟨1, "h", "l", "t", "b"⟩], [(1, 100)]⟩ [] = [] ∧
    Profiler.dump_results ⟨2, 3, []⟩ ⟨[⟨1, "h", "l", "t", "b"⟩], [(1, 100)]⟩ =
      ["hostname | lang | toolchain | benchmark | min(ms) | avg(ms) | max(ms)"] := by
  constructor <;> rfl

/-- C10 (amended): `load_runs_by_ids` with an empty id sequence returns
the empty result set (sqlite permits the empty `IN ()` list), and
`Profiler.dump_results` on a Profiler instance that profiled no benchmark
succeeds, rendering only the header row. -/
theorem load_runs_by_ids_empty_ok (db : DBState) (p : Profiler)
    (h : p.run_ids = []) :
    load_runs_by_ids db [] = [] ∧
    p.dump_results db =
      ["hostname | lang | toolchain | benchmark | min(ms) | avg(ms) | max(ms)"] := by
  have h1 : load_runs_by_ids db [] = [] := by
    rw [load_runs_by_ids]
    simp
  refine ⟨h1, ?_⟩
  rw [Profiler.dump_results, h, h1]
  rfl

theorem load_runs_by_ids_empty_ok_witness :
    (Profiler.run_ids ⟨2, 3, []⟩ = []) ∧
    (load_runs_by_ids emptyDB [] = [] ∧
     Profiler.dump_results ⟨2, 3, []⟩ emptyDB =
       ["hostname | lang | toolchain | benchmark | min(ms) | avg(ms) | max(ms)"]) :=
  ⟨rfl, load_runs_by_ids_empty_ok emptyDB ⟨2, 3, []⟩ rfl⟩

/-- C7 (counterexample): the store starts with *no* runs at all, so run
id 1 references no existing Run; yet `add_sample_to_run` succeeds (it is
a plain INSERT — the schema has no foreign-key constraint) and the store
*is* changed: the orphan sample row is appended. -/
theorem add_sample_unknown_run_counterexample :
    (emptyDB.runs.map RunRow.id = []) ∧
    add_sample_to_run emptyDB 1 100 ≠ emptyDB ∧
    (add_sample_to_run emptyDB 1 100).samples = [(1, 100)] := by
  refine ⟨rfl, ?_, rfl⟩
  intro hc
  simpa [add_sample_to_run, emptyDB] using congrArg DBState.samples hc

/-- C7 (amended): `add_sample_to_run` never fails: for *any* run id,
existing or not, it appends the sample row and leaves the `run` table
unchanged.  When the id references no existing Run the new sample is an
orphan: `load_all_runs` and `load_latest_runs` return exactly what they
returned before (no Run picks it up). -/
theorem add_sample_to_run_spec (db : DBState) (rid d : ℕ)
    (h : rid ∉ db.runs.map RunRow.id) :
    (add_sample_to_run db rid d).runs = db.runs ∧
    (add_sample_to_run db rid d).samples = db.samples ++ [(rid, d)] ∧
    load_all_runs (add_sample_to_run db rid d) = load_all_runs db ∧
    load_latest_runs (add_sample_to_run db rid d) = load_latest_runs db := by
  have key : ∀ r : RunRow, r ∈ db.runs →
      groupSamples (db.samples ++ [(rid, d)]) r.id = groupSamples db.samples r.id := by
    intro r hr
    have hne : ¬rid = r.id := fun hc => h (hc ▸ List.mem_map_of_mem RunRow.id hr)
    rw [groupSamples_eq, groupSamples_eq, List.filter_append]
    simp [hne]
  refine ⟨rfl, rfl, ?_, ?_⟩
  · rw [load_all_runs, load_all_runs]
    exact List.map_congr_left (fun row hrow =>
      by simp [mkRun, add_sample_to_run, key row hrow])
  · rw [load_latest_runs, load_latest_runs]
    exact List.map_congr_left (fun row hrow =>
      by simp [mkRun, add_sample_to_run, key row (List.mem_of_mem_filter hrow)])

theorem add_sample_to_run_spec_witness :
    ((2 : ℕ) ∉ (DBState.mk [⟨1, "h", "l", "t", "b"⟩] []).runs.map RunRow.id) ∧
    ((add_sample_to_run ⟨[⟨1, "h", "l", "t", "b"⟩], []⟩ 2 5).runs =
        (DBState.mk [⟨1, "h", "l", "t", "b"⟩] []).runs ∧
      (add_sample_to_run ⟨[⟨1, "h", "l", "t", "b"⟩], []⟩ 2 5).samples =
        (DBState.mk [⟨1, "h", "l", "t", "b"⟩] []).samples ++ [(2, 5)] ∧
      load_all_runs (add_sample_to_run ⟨[⟨1, "h", "l", "t", "b"⟩], []⟩ 2 5) =
        load_all_runs ⟨[⟨1, "h", "l", "t", "b"⟩], []⟩ ∧
      load_latest_runs (add_sample_to_run ⟨[⟨1, "h", "l", "t", "b"⟩], []⟩ 2 5) =
        load_latest_runs ⟨[⟨1, "h", "l", "t", "b"⟩], []⟩) :=
  ⟨by decide, add_sample_to_run_spec ⟨[⟨1, "h", "l", "t", "b"⟩], []⟩ 2 5 (by decide)⟩

/-- Key of a constructed `Run` record is the key of its row. -/
theorem mkRun_key (lookup : ℕ → List ℕ) (row : RunRow) :
    (mkRun lookup row).key = row.key := rfl

/-- Membership in the `GROUP BY`/`MAX(id)` row selection of
`load_latest_runs`: the rows whose id is maximal within their
identity-key group. -/
theorem latest_filter_mem (db : DBState) (row : RunRow) :
    (row ∈ db.runs.filter (fun r =>
        db.runs.all (fun r' => !(r'.key == r.key) || r'.id ≤ r.id))) ↔
      row ∈ db.runs ∧ ∀ r' ∈ db.runs, r'.key = row.key → r'.id ≤ row.id := by
  rw [List.mem_filter, List.all_eq_true]
  constructor
  · rintro ⟨h1, h2⟩
    refine ⟨h1, fun r' hr' hk => ?_⟩
    have := h2 r' hr'
    simpa [hk] using this
  · rintro ⟨h1, h2⟩
    refine ⟨h1, fun r' hr' => ?_⟩
    by_cases hk : r'.key = row.key
    · simp [hk, h2 r' hr' hk]
    · simp [hk]

/-- A non-empty list of rows has a row of maximal id. -/
theorem exists_max_id (l : List RunRow) :
    l ≠ [] → ∃ m ∈ l, ∀ x ∈ l, x.id ≤ m.id := by
  induction l with
  | nil => intro h; exact absurd rfl h
  | cons a t ih =>
    intro _
    by_cases ht : t = []
    · subst ht
      exact ⟨a, by simp⟩
    · obtain ⟨m, hm, hmax⟩ := ih ht
      by_cases hc : a.id ≤ m.id
      · refine ⟨m, List.mem_cons_of_mem _ hm, fun x hx => ?_⟩
        rcases List.mem_cons.mp hx with rfl | hx
        · exact hc
        · exact hmax x hx
      · refine ⟨a, List.mem_cons_self _ _, fun x hx => ?_⟩
        rcases List.mem_cons.mp hx with rfl | hx
        · exact le_refl _
        · exact (hmax x hx).trans (le_of_not_le hc)

/-- C3: With unique run ids (sqlite primary keys), `load_latest_runs`
returns, for each identity key that has at least one Run, exactly one
Run — the one with the maximum id for that key — and no other Runs:
(1) membership characterization: the results are exactly the per-key
maximal rows; (2) at most one result per key; (3) at least one result
per key present in the store, dominating every run of that key. -/
theorem load_latest_runs_spec (db : DBState)
    (hnd : (db.runs.map RunRow.id).Nodup) :
    (∀ r : Run, r ∈ load_latest_runs db ↔
      ∃ row ∈ db.runs,
        (∀ row' ∈ db.runs, row'.key = row.key → row'.id ≤ row.id) ∧
        r = mkRun (groupSamples db.samples) row) ∧
    (∀ r₁ ∈ load_latest_runs db, ∀ r₂ ∈ load_latest_runs db,
      r₁.key = r₂.key → r₁ = r₂) ∧
    (∀ row ∈ db.runs, ∃ r ∈ load_latest_runs db,
      r.key = row.key ∧ row.id ≤ r.id) := by
  have hmem : ∀ r : Run, r ∈ load_latest_runs db ↔
      ∃ row ∈ db.runs,
        (∀ row' ∈ db.runs, row'.key = row.key → row'.id ≤ row.id) ∧
        r = mkRun (groupSamples db.samples) row := by
    intro r
    rw [load_latest_runs, List.mem_map]
    constructor
    · rintro ⟨row, hrow, rfl⟩
      obtain ⟨h1, h2⟩ := (latest_filter_mem db row).mp hrow
      exact ⟨row, h1, h2, rfl⟩
    · rintro ⟨row, h1, h2, rfl⟩
      exact ⟨row, (latest_filter_mem db row).mpr ⟨h1, h2⟩, rfl⟩
  refine ⟨hmem, ?_, ?_⟩
  · intro r₁ hr₁ r₂ hr₂ hk
    obtain ⟨row₁, hm₁, hmax₁, rfl⟩ := (hmem r₁).mp hr₁
    obtain ⟨row₂, hm₂, hmax₂, rfl⟩ := (hmem r₂).mp hr₂
    rw [mkRun_key, mkRun_key] at hk
    have h12 : row₁.id ≤ row₂.id := hmax₂ row₁ hm₁ hk
    have h21 : row₂.id ≤ row₁.id := hmax₁ row₂ hm₂ hk.symm
    have : row₁ = row₂ :=
      List.inj_on_of_nodup_map hnd hm₁ hm₂ (le_antisymm h12 h21)
    rw [this]
  · intro row hrow
    have hfne : db.runs.filter (fun r => decide (r.key = row.key)) ≠ [] := by
      intro hc
      have : row ∈ db.runs.filter (fun r => decide (r.key = row.key)) := by
        rw [List.mem_filter]
        exact ⟨hrow, by simp⟩
      rw [hc] at this
      cases this
    obtain ⟨m, hm, hmax⟩ :=
      exists_max_id (db.runs.filter (fun r => decide (r.key = row.key))) hfne
    obtain ⟨hm', hmk⟩ := List.mem_filter.mp hm
    have hmkey : m.key = row.key := by simpa using hmk
    refine ⟨mkRun (groupSamples db.samples) m, ?_, ?_, ?_⟩
    · refine (hmem _).mpr ⟨m, hm', fun r' hr' hk' => ?_, rfl⟩
      refine hmax r' (List.mem_filter.mpr ⟨hr', by simp [hk'.trans hmkey]⟩)
    · rw [mkRun_key]; exact hmkey
    · exact hmax row (List.mem_filter.mpr ⟨hrow, by simp⟩)

theorem load_latest_runs_spec_witness :
    ((DBState.mk [⟨1, "h", "l", "t", "b"⟩, ⟨2, "h", "l", "t", "b"⟩] []).runs.map
        RunRow.id).Nodup ∧
    ((∀ r : Run,
        r ∈ load_latest_runs ⟨[⟨1, "h", "l", "t", "b"⟩, ⟨2, "h", "l", "t", "b"⟩], []⟩ ↔
        ∃ row ∈ (DBState.mk [⟨1, "h", "l", "t", "b"⟩, ⟨2, "h", "l", "t", "b"⟩] []).runs,
          (∀ row' ∈ (DBState.mk [⟨1, "h", "l", "t", "b"⟩, ⟨2, "h", "l", "t", "b"⟩] []).runs,
            row'.key = row.key → row'.id ≤ row.id) ∧
          r = mkRun (groupSamples []) row) ∧
      (∀ r₁ ∈ load_latest_runs ⟨[⟨1, "h", "l", "t", "b"⟩, ⟨2, "h", "l", "t", "b"⟩], []⟩,
        ∀ r₂ ∈ load_latest_runs ⟨[⟨1, "h", "l", "t", "b"⟩, ⟨2, "h", "l", "t", "b"⟩], []⟩,
        r₁.key = r₂.key → r₁ = r₂) ∧
      (∀ row ∈ (DBState.mk [⟨1, "h", "l", "t", "b"⟩, ⟨2, "h", "l", "t", "b"⟩] []).runs,
        ∃ r ∈ load_latest_runs ⟨[⟨1, "h", "l", "t", "b"⟩, ⟨2, "h", "l", "t", "b"⟩], []⟩,
          r.key = row.key ∧ row.id ≤ r.id)) :=
  ⟨by decide,
   load_latest_runs_spec ⟨[⟨1, "h", "l", "t", "b"⟩, ⟨2, "h", "l", "t", "b"⟩], []⟩ (by decide)⟩

/-- Round trip through the store: create a Run, append samples
`d1..dn` to it (left to right, as the measured loop does), then load it
back by id.  In a well-formed store (every existing sample references an
existing run — the situation every API-produced state is in), the result
is exactly one Run with the creation-time identity fields and the
samples in insertion order. -/
theorem create_add_load_round_trip (db : DBState)
    (hwf : ∀ s ∈ db.samples, s.1 ∈ db.runs.map RunRow.id)
    (h l t n : String) (ds : List ℕ) :
    load_runs_by_ids
      (ds.foldl (fun s d => add_sample_to_run s (create_run db h l t n).1 d)
        (create_run db h l t n).2)
      [(create_run db h l t n).1]
      = [⟨maxRunId db + 1, h, l, t, n, ds⟩] := by
  have hlt : ∀ i : ℕ, i ≤ maxRunId db → ¬([maxRunId db + 1].contains i = true) := by
    intro i hi hc
    have : i = maxRunId db + 1 := by simpa using hc
    omega
  have hrow : ∀ r ∈ db.runs, ¬([maxRunId db + 1].contains r.id = true) :=
    fun r hr => hlt r.id (id_le_maxRunId hr)
  have hsam : ∀ s ∈ db.samples, ¬([maxRunId db + 1].contains s.1 = true) := by
    intro s hs
    obtain ⟨r, hr, hid⟩ := List.mem_map.mp (hwf s hs)
    exact hid ▸ hrow r hr
  rw [foldl_add_sample, load_runs_by_ids]
  have hc1 : (create_run db h l t n).1 = maxRunId db + 1 := rfl
  have hc2 : (create_run db h l t n).2.samples = db.samples := rfl
  have hc3 : (create_run db h l t n).2.runs
      = db.runs ++ [⟨maxRunId db + 1, h, l, t, n⟩] := rfl
  rw [hc1, hc2, hc3]
  rw [List.filter_append, List.filter_append,
    List.filter_eq_nil_iff.mpr hrow, List.filter_eq_nil_iff.mpr hsam,
    List.nil_append, List.nil_append]
  rw [List.filter_eq_self.mpr (by
    intro s hs
    obtain ⟨d, _, rfl⟩ := List.mem_map.mp hs
    simp)]
  rw [show (([⟨maxRunId db + 1, h, l, t, n⟩] : List RunRow).filter
      (fun r => [maxRunId db + 1].contains r.id)) = [⟨maxRunId db + 1, h, l, t, n⟩] from by
    simp]
  rw [List.map_singleton, mkRun, groupSamples_eq]
  rw [List.filter_eq_self.mpr (by
    intro s hs
    obtain ⟨d, _, rfl⟩ := List.mem_map.mp hs
    simp)]
  simp

/-- C4: for every Run created via `create_run` and durations `d1..dn`
subsequently appended via `add_sample_to_run`, `load_runs_by_ids [id]`
returns exactly one Run whose identity fields equal those given at
creation and whose samples equal `(d1,...,dn)` in insertion order. -/
theorem run_samples_round_trip (db : DBState)
    (hwf : ∀ s ∈ db.samples, s.1 ∈ db.runs.map RunRow.id)
    (h l t n : String) (ds : List ℕ) :
    load_runs_by_ids
      (ds.foldl (fun s d => add_sample_to_run s (create_run db h l t n).1 d)
        (create_run db h l t n).2)
      [(create_run db h l t n).1]
      = [⟨maxRunId db + 1, h, l, t, n, ds⟩] :=
  create_add_load_round_trip db hwf h l t n ds

theorem run_samples_round_trip_witness :
    (∀ s ∈ emptyDB.samples, s.1 ∈ emptyDB.runs.map RunRow.id) ∧
    load_runs_by_ids
      ([100, 200, 300].foldl
        (fun s d => add_sample_to_run s
          (create_run emptyDB "myhostname" "mylanguage" "mytoolchain" "mybenchmark").1 d)
        (create_run emptyDB "myhostname" "mylanguage" "mytoolchain" "mybenchmark").2)
      [(create_run emptyDB "myhostname" "mylanguage" "mytoolchain" "mybenchmark").1]
      = [⟨maxRunId emptyDB + 1, "myhostname", "mylanguage", "mytoolchain", "mybenchmark",
          [100, 200, 300]⟩] :=
  ⟨by simp [emptyDB],
   run_samples_round_trip emptyDB (by simp [emptyDB])
     "myhostname" "mylanguage" "mytoolchain" "mybenchmark" [100, 200, 300]⟩

/-- C8: a Run with zero Samples loads back with an empty sample
collection (no error), and the Reporter renders its min/avg/max cells as
the `"---"` placeholder — the guarded branch never evaluates `min`,
`max`, or the dividing `avg` on the empty collection. -/
theorem empty_run_loads_and_reports_placeholder (db : DBState)
    (hwf : ∀ s ∈ db.samples, s.1 ∈ db.runs.map RunRow.id)
    (h l t n : String) :
    load_runs_by_ids (create_run db h l t n).2 [(create_run db h l t n).1]
      = [⟨maxRunId db + 1, h, l, t, n, []⟩] ∧
    (∀ run : Run, run.samples = [] →
      dump_row run =
        [.text run.hostname, .text run.language, .text run.toolchain_label,
         .text run.benchmark_name, .text "---", .text "---", .text "---"]) := by
  constructor
  · exact create_add_load_round_trip db hwf h l t n []
  · intro run hs
    rw [dump_row, hs]
    rfl

theorem empty_run_loads_and_reports_placeholder_witness :
    (∀ s ∈ emptyDB.samples, s.1 ∈ emptyDB.runs.map RunRow.id) ∧
    (load_runs_by_ids (create_run emptyDB "host2" "C++" "Clang" "test only").2
        [(create_run emptyDB "host2" "C++" "Clang" "test only").1]
      = [⟨maxRunId emptyDB + 1, "host2", "C++", "Clang", "test only", []⟩] ∧
    (∀ run : Run, run.samples = [] →
      dump_row run =
        [.text run.hostname, .text run.language, .text run.toolchain_label,
         .text run.benchmark_name, .text "---", .text "---", .text "---"])) :=
  ⟨by simp [emptyDB],
   empty_run_loads_and_reports_placeholder emptyDB (by simp [emptyDB])
     "host2" "C++" "Clang" "test only"⟩

/-- A concrete benchmark whose hooks all succeed, used as a witness
input; the k-th timed phase takes `100 * (k + 1)` nanoseconds. -/
def rustBenchmark : Benchmark :=
  ⟨"Rust", "Stable", "full build and test", .ok (), fun _ => .ok (),
   fun k => .ok (100 * (k + 1)), fun _ => .ok (), .ok ()⟩

/-- C6: `Filterer.profile` delegates to the inner component's `profile`
iff the pattern occurs inside the benchmark's full name
`"language, toolchain_label, name"` (a search anywhere in the string,
not a full match); on no match it leaves the inner state untouched (and,
being a total function, raises nothing); the empty pattern — the CLI
default — admits every benchmark. -/
theorem filterer_profile_spec {σ : Type} (f : Filterer σ) (b : Benchmark) (s : σ) :
    (f.filter.data <:+: b.full_name.data → f.profile b s = f.profiler b s) ∧
    (¬(f.filter.data <:+: b.full_name.data) → f.profile b s = s) ∧
    (f.filter = "" → f.profile b s = f.profiler b s) := by
  refine ⟨?_, ?_, ?_⟩
  · intro hmatch
    simp [Filterer.profile, re_search, hmatch]
  · intro hmatch
    simp [Filterer.profile, re_search, hmatch]
  · intro hempty
    simp [Filterer.profile, re_search, hempty]

theorem filterer_profile_spec_witness :
    (("Rust" : String).data <:+: rustBenchmark.full_name.data) ∧
    Filterer.profile
        (Filterer.mk (fun (b : Benchmark) (s : Lister) => s.profile b) "Rust")
        rustBenchmark (Lister.mk []) =
      (Filterer.mk (fun (b : Benchmark) (s : Lister) => s.profile b) "Rust").profiler
        rustBenchmark ⟨[]⟩ :=
  ⟨by decide,
   (filterer_profile_spec
      (Filterer.mk (fun (b : Benchmark) (s : Lister) => s.profile b) "Rust")
      rustBenchmark ⟨[]⟩).1 (by decide)⟩

/-- One-step unfolding of the iteration loop. -/
theorem profileLoop_succ (b : Benchmark) (rid : Option ℕ) (k c : ℕ) (db : DBState) :
    profileLoop b rid k (c + 1) db =
      match profile_one b k rid db with
      | (tr, db', .error e) => (tr, db', .error e)
      | (tr, db', .ok _) =>
        match profileLoop b rid (k + 1) c db' with
        | (tr', db'', r) => (tr ++ tr', db'', r) := rfl

/-- A fully successful iteration: all three per-iteration hooks are
invoked in order, and a Sample with `run_timed`'s duration is written iff
a run id was supplied (measured iteration). -/
theorem profile_one_ok (b : Benchmark) (k : ℕ) (rid : Option ℕ) (db : DBState) (d : ℕ)
    (h1 : b.before_each_untimed k = .ok ()) (h2 : b.run_timed k = .ok d)
    (h3 : b.after_each_untimed k = .ok ()) :
    profile_one b k rid db =
      ([.before_each_untimed, .run_timed, .after_each_untimed],
       (match rid with
        | none => db
        | some r => add_sample_to_run db r d), .ok ()) := by
  simp only [profile_one, h1, h2, h3]

/-- The iteration loop when every hook in range succeeds: the event
trace is the `(before_each, run, after_each)` triple repeated, the
database gains one sample row per iteration (in order, with the measured
durations) when a run id is supplied and none otherwise, and no
exception propagates. -/
theorem profileLoop_ok (b : Benchmark) (dur : ℕ → ℕ) (rid : Option ℕ) :
    ∀ (cnt k : ℕ) (db : DBState),
      (∀ j, k ≤ j → j < k + cnt →
        b.before_each_untimed j = .ok () ∧ b.run_timed j = .ok (dur j) ∧
        b.after_each_untimed j = .ok ()) →
      profileLoop b rid k cnt db =
        ((List.replicate cnt
            [Event.before_each_untimed, .run_timed, .after_each_untimed]).flatten,
         ⟨db.runs, db.samples ++ (match rid with
            | none => []
            | some r => (List.range cnt).map (fun i => (r, dur (k + i))))⟩,
         .ok ()) := by
  intro cnt
  induction cnt with
  | zero =>
    intro k db hh
    cases rid <;> simp [profileLoop]
  | succ c ih =>
    intro k db hh
    obtain ⟨h1, h2, h3⟩ := hh k (le_refl k) (by omega)
    have hnext : ∀ j, k + 1 ≤ j → j < (k + 1) + c →
        b.before_each_untimed j = .ok () ∧ b.run_timed j = .ok (dur j) ∧
        b.after_each_untimed j = .ok () :=
      fun j hj1 hj2 => hh j (by omega) (by omega)
    have harith : ∀ i : ℕ, k + 1 + i = k + (i + 1) := fun i => by omega
    cases rid with
    | none =>
      simp only [profileLoop_succ, profile_one_ok b k none db (dur k) h1 h2 h3,
        ih (k + 1) db hnext]
      simp [List.replicate_succ]
    | some r =>
      simp only [profileLoop_succ, profile_one_ok b k (some r) db (dur k) h1 h2 h3,
        ih (k + 1) (add_sample_to_run db r (dur k)) hnext]
      simp [add_sample_to_run, List.replicate_succ, List.range_succ_eq_map,
        List.map_map, Function.comp, harith]

set_option maxRecDepth 4000 in
/-- C1: when no hook raises, `Profiler.profile` invokes the hooks in
exactly the order `before_all_untimed`, then `(before_each_untimed,
run_timed, after_each_untimed)` repeated `warmup + iterations` times,
then `after_all_untimed`; it creates exactly one Run row (with the
benchmark's identity fields and the global hostname) and writes exactly
`iterations` samples to it — one per measured iteration, carrying the
duration of that iteration's `run_timed` only; the warmup iterations
write no sample.  The created run id is recorded in `_run_ids`. -/
theorem profiler_profile_lifecycle (p : Profiler) (b : Benchmark) (db : DBState)
    (dur : ℕ → ℕ)
    (hba : b.before_all_untimed = .ok ())
    (hhooks : ∀ j < p.warmup_iterations + p.iterations,
      b.before_each_untimed j = .ok () ∧ b.run_timed j = .ok (dur j) ∧
      b.after_each_untimed j = .ok ())
    (haa : b.after_all_untimed = .ok ()) :
    p.profile b db =
      (Event.before_all_untimed ::
        ((List.replicate (p.warmup_iterations + p.iterations)
            [Event.before_each_untimed, .run_timed, .after_each_untimed]).flatten ++
          [Event.after_all_untimed]),
       ⟨db.runs ++ [⟨maxRunId db + 1, HOSTNAME, b.language, b.toolchain_label, b.name⟩],
        db.samples ++ (List.range p.iterations).map
          (fun i => (maxRunId db + 1, dur (p.warmup_iterations + i)))⟩,
       ⟨p.warmup_iterations, p.iterations, p.run_ids ++ [maxRunId db + 1]⟩,
       .ok ()) := by
  have hyp1 : ∀ j, 0 ≤ j → j < 0 + p.warmup_iterations →
      b.before_each_untimed j = .ok () ∧ b.run_timed j = .ok (dur j) ∧
      b.after_each_untimed j = .ok () :=
    fun j _ hj => hhooks j (by omega)
  have hyp2 : ∀ j, p.warmup_iterations ≤ j →
      j < p.warmup_iterations + p.iterations →
      b.before_each_untimed j = .ok () ∧ b.run_timed j = .ok (dur j) ∧
      b.after_each_untimed j = .ok () :=
    fun j _ hj => hhooks j hj
  have hW := profileLoop_ok b dur none p.warmup_iterations 0
    (create_run db HOSTNAME b.language b.toolchain_label b.name).2 hyp1
  have hM := profileLoop_ok b dur
    (some (create_run db HOSTNAME b.language b.toolchain_label b.name).1)
    p.iterations p.warmup_iterations
    (create_run db HOSTNAME b.language b.toolchain_label b.name).2 hyp2
  simp only [Profiler.profile, hba, hW, List.append_nil, hM, haa,
    List.replicate_add, List.flatten_append]
  rfl

theorem profiler_profile_lifecycle_witness :
    (rustBenchmark.before_all_untimed = .ok () ∧
     (∀ j < 1 + 2, rustBenchmark.before_each_untimed j = .ok () ∧
        rustBenchmark.run_timed j = .ok (100 * (j + 1)) ∧
        rustBenchmark.after_each_untimed j = .ok ()) ∧
     rustBenchmark.after_all_untimed = .ok ()) ∧
    Profiler.profile ⟨1, 2, []⟩ rustBenchmark emptyDB =
      (Event.before_all_untimed ::
        ((List.replicate (1 + 2)
            [Event.before_each_untimed, .run_timed, .after_each_untimed]).flatten ++
          [Event.after_all_untimed]),
       ⟨emptyDB.runs ++ [⟨maxRunId emptyDB + 1, HOSTNAME, rustBenchmark.language,
          rustBenchmark.toolchain_label, rustBenchmark.name⟩],
        emptyDB.samples ++ (List.range 2).map
          (fun i => (maxRunId emptyDB + 1, 100 * ((1 + i) + 1)))⟩,
       ⟨1, 2, [] ++ [maxRunId emptyDB + 1]⟩,
       .ok ()) :=
  ⟨⟨rfl, fun _ _ => ⟨rfl, rfl, rfl⟩, rfl⟩,
   profiler_profile_lifecycle ⟨1, 2, []⟩ rustBenchmark emptyDB (fun k => 100 * (k + 1))
     rfl (fun _ _ => ⟨rfl, rfl, rfl⟩) rfl⟩

/-- A single iteration never invokes `after_all_untimed`. -/
theorem after_all_not_mem_profile_one (b : Benchmark) (k : ℕ) (rid : Option ℕ)
    (db : DBState) :
    Event.after_all_untimed ∉ (profile_one b k rid db).1 := by
  cases hbe : b.before_each_untimed k <;>
    cases hrt : b.run_timed k <;>
    cases hae : b.after_each_untimed k <;>
    simp [profile_one, hbe, hrt, hae]

/-- Loop step when the iteration raises: the loop stops with that
exception. -/
theorem profileLoop_succ_err (b : Benchmark) (rid : Option ℕ) (k c : ℕ)
    (db : DBState) (tr : List Event) (db1 : DBState) (e : String)
    (hpo : profile_one b k rid db = (tr, db1, .error e)) :
    profileLoop b rid k (c + 1) db = (tr, db1, .error e) := by
  rw [profileLoop_succ, hpo]

/-- Loop step when the iteration succeeds: the loop continues on the
updated state, prefixing the iteration's events. -/
theorem profileLoop_succ_okstep (b : Benchmark) (rid : Option ℕ) (k c : ℕ)
    (db : DBState) (tr : List Event) (db1 : DBState)
    (hpo : profile_one b k rid db = (tr, db1, .ok ())) :
    profileLoop b rid k (c + 1) db =
      (tr ++ (profileLoop b rid (k + 1) c db1).1,
       (profileLoop b rid (k + 1) c db1).2.1,
       (profileLoop b rid (k + 1) c db1).2.2) := by
  rw [profileLoop_succ, hpo]

/-- The iteration loop never invokes `after_all_untimed`. -/
theorem after_all_not_mem_profileLoop (b : Benchmark) (rid : Option ℕ) :
    ∀ (cnt k : ℕ) (db : DBState),
      Event.after_all_untimed ∉ (profileLoop b rid k cnt db).1 := by
  intro cnt
  induction cnt with
  | zero => intro k db; simp [profileLoop]
  | succ c ih =>
    intro k db
    have hnot := after_all_not_mem_profile_one b k rid db
    rcases hpo : profile_one b k rid db with ⟨tr, db', r⟩
    rw [hpo] at hnot
    cases r with
    | error e =>
      rw [profileLoop_succ_err b rid k c db tr db' e hpo]
      simpa using hnot
    | ok u =>
      cases u
      rw [profileLoop_succ_okstep b rid k c db tr db' hpo]
      simp only [List.mem_append]
      intro hmem
      rcases hmem with hmem | hmem
      · exact hnot (by simpa using hmem)
      · exact ih (k + 1) db' hmem

/-- The iteration loop completes without an exception iff every hook of
every iteration in range returns. -/
theorem profileLoop_ok_iff (b : Benchmark) (rid : Option ℕ) :
    ∀ (cnt k : ℕ) (db : DBState),
      (profileLoop b rid k cnt db).2.2 = .ok () ↔
      (∀ j, k ≤ j → j < k + cnt →
        b.before_each_untimed j = .ok () ∧ (∃ d, b.run_timed j = .ok d) ∧
        b.after_each_untimed j = .ok ()) := by
  intro cnt
  induction cnt with
  | zero =>
    intro k db
    simp [profileLoop]
    intro j h1 h2
    omega
  | succ c ih =>
    intro k db
    cases hbe : b.before_each_untimed k with
    | error e =>
      have hpo : profile_one b k rid db = ([.before_each_untimed], db, .error e) := by
        simp [profile_one, hbe]
      rw [profileLoop_succ_err b rid k c db _ _ e hpo]
      constructor
      · intro h; simp at h
      · intro h
        have h1 := (h k (le_refl k) (by omega)).1
        rw [hbe] at h1
        simp at h1
    | ok u =>
      cases u
      cases hrt : b.run_timed k with
      | error e =>
        have hpo : profile_one b k rid db
            = ([.before_each_untimed, .run_timed], db, .error e) := by
          simp [profile_one, hbe, hrt]
        rw [profileLoop_succ_err b rid k c db _ _ e hpo]
        constructor
        · intro h; simp at h
        · intro h
          obtain ⟨d, hd⟩ := (h k (le_refl k) (by omega)).2.1
          rw [hrt] at hd
          simp at hd
      | ok d =>
        cases hae : b.after_each_untimed k with
        | error e =>
          have hpo : profile_one b k rid db
              = ([.before_each_untimed, .run_timed, .after_each_untimed], db, .error e) := by
            simp [profile_one, hbe, hrt, hae]
          rw [profileLoop_succ_err b rid k c db _ _ e hpo]
          constructor
          · intro h; simp at h
          · intro h
            have h1 := (h k (le_refl k) (by omega)).2.2
            rw [hae] at h1
            simp at h1
        | ok u =>
          cases u
          cases rid with
          | none =>
            have hpo : profile_one b k none db
                = ([.before_each_untimed, .run_timed, .after_each_untimed], db, .ok ()) := by
              simp [profile_one, hbe, hrt, hae]
            rw [profileLoop_succ_okstep b none k c db _ _ hpo]
            show (profileLoop b none (k + 1) c db).2.2 = Except.ok () ↔ _
            rw [ih (k + 1) db]
            constructor
            · intro h j hj1 hj2
              rcases Nat.eq_or_lt_of_le hj1 with rfl | hgt
              · exact ⟨hbe, ⟨d, hrt⟩, hae⟩
              · exact h j (by omega) (by omega)
            · intro h j hj1 hj2
              exact h j (by omega) (by omega)
          | some r =>
            have hpo : profile_one b k (some r) db
                = ([.before_each_untimed, .run_timed, .after_each_untimed],
                   add_sample_to_run db r d, .ok ()) := by
              simp [profile_one, hbe, hrt, hae]
            rw [profileLoop_succ_okstep b (some r) k c db _ _ hpo]
            show (profileLoop b (some r) (k + 1) c
              (add_sample_to_run db r d)).2.2 = Except.ok () ↔ _
            rw [ih (k + 1) (add_sample_to_run db r d)]
            constructor
            · intro h j hj1 hj2
              rcases Nat.eq_or_lt_of_le hj1 with rfl | hgt
              · exact ⟨hbe, ⟨d, hrt⟩, hae⟩
              · exact h j (by omega) (by omega)
            · intro h j hj1 hj2
              exact h j (by omega) (by omega)

/-- A benchmark whose timed phase raises on every iteration (as a failed
external build does via `subprocess.check_call`). -/
def failingBenchmark : Benchmark :=
  ⟨"C++", "Clang", "full build and test", .ok (), fun _ => .ok (),
   fun _ => .error "build failed", fun _ => .ok (), .ok ()⟩

/-- C2 (counterexample): with 0 warmup and 1 measured iteration, the
timed phase raises; the error propagates out of `profile` and the
invoked hooks are exactly `before_all_untimed, before_each_untimed,
run_timed` — `after_all_untimed` is *not* invoked (there is no
`try`/`finally` in `Profiler.profile`). -/
theorem after_all_skipped_on_error_counterexample :
    (Profiler.profile ⟨0, 1, []⟩ failingBenchmark emptyDB).2.2.2
      = .error "build failed" ∧
    (Profiler.profile ⟨0, 1, []⟩ failingBenchmark emptyDB).1
      = [.before_all_untimed, .before_each_untimed, .run_timed] ∧
    Event.after_all_untimed ∉ (Profiler.profile ⟨0, 1, []⟩ failingBenchmark emptyDB).1 := by
  refine ⟨rfl, rfl, ?_⟩
  rw [show (Profiler.profile ⟨0, 1, []⟩ failingBenchmark emptyDB).1
    = [.before_all_untimed, .before_each_untimed, .run_timed] from rfl]
  decide

/-- C2 (amended): `after_all_untimed` is invoked iff `before_all_untimed`
and every per-iteration hook of all warmup+measured iterations return
normally; when `before_all_untimed`, any `before_each_untimed`, any
`run_timed`, or any `after_each_untimed` raises, the exception propagates
out of `profile` *without* `after_all_untimed` being invoked. -/
theorem after_all_runs_iff_no_earlier_raise (p : Profiler) (b : Benchmark)
    (db : DBState) :
    Event.after_all_untimed ∈ (p.profile b db).1 ↔
      (b.before_all_untimed = .ok () ∧
       ∀ j < p.warmup_iterations + p.iterations,
         b.before_each_untimed j = .ok () ∧ (∃ d, b.run_timed j = .ok d) ∧
         b.after_each_untimed j = .ok ()) := by
  cases hba : b.before_all_untimed with
  | error e =>
    simp only [Profiler.profile, hba]
    constructor
    · intro h; simp at h
    · rintro ⟨h1, _⟩
      simp at h1
  | ok u =>
    cases u
    rcases hW : profileLoop b none 0 p.warmup_iterations
        (create_run db HOSTNAME b.language b.toolchain_label b.name).2
      with ⟨trW, db2, rW⟩
    have hWnot := after_all_not_mem_profileLoop b none p.warmup_iterations 0
      (create_run db HOSTNAME b.language b.toolchain_label b.name).2
    rw [hW] at hWnot
    have hWiff := profileLoop_ok_iff b none p.warmup_iterations 0
      (create_run db HOSTNAME b.language b.toolchain_label b.name).2
    rw [hW] at hWiff
    simp only [List.mem_singleton] at hWnot
    cases rW with
    | error e =>
      simp only [Profiler.profile, hba, hW]
      constructor
      · intro h
        simp at h
        exact (hWnot h).elim
      · rintro ⟨h1, h2⟩
        have hc := hWiff.mpr (fun j hj1 hj2 => h2 j (by omega))
        simp at hc
    | ok u2 =>
      cases u2
      rcases hM : profileLoop b
          (some (create_run db HOSTNAME b.language b.toolchain_label b.name).1)
          p.warmup_iterations p.iterations db2
        with ⟨trM, db3, rM⟩
      have hMnot := after_all_not_mem_profileLoop b
        (some (create_run db HOSTNAME b.language b.toolchain_label b.name).1)
        p.iterations p.warmup_iterations db2
      rw [hM] at hMnot
      have hMiff := profileLoop_ok_iff b
        (some (create_run db HOSTNAME b.language b.toolchain_label b.name).1)
        p.iterations p.warmup_iterations db2
      rw [hM] at hMiff
      cases rM with
      | error e =>
        simp only [Profiler.profile, hba, hW, hM]
        constructor
        · intro h
          simp at h
          rcases h with h | h
          · exact (hWnot h).elim
          · exact (hMnot h).elim
        · rintro ⟨h1, h2⟩
          have hc := hMiff.mpr (fun j hj1 hj2 => h2 j (by omega))
          simp at hc
      | ok u3 =>
        cases u3
        have hooks : ∀ j < p.warmup_iterations + p.iterations,
            b.before_each_untimed j = .ok () ∧ (∃ d, b.run_timed j = .ok d) ∧
            b.after_each_untimed j = .ok () := by
          intro j hj
          by_cases hjW : j < p.warmup_iterations
          · exact hWiff.mp rfl j (by omega) (by omega)
          · exact hMiff.mp rfl j (by omega) (by omega)
        cases haa : b.after_all_untimed with
        | error e =>
          simp only [Profiler.profile, hba, hW, hM, haa]
          constructor
          · intro _
            exact ⟨trivial, hooks⟩
          · intro _
            simp
        | ok u4 =>
          cases u4
          simp only [Profiler.profile, hba, hW, hM, haa]
          constructor
          · intro _
            exact ⟨trivial, hooks⟩
          · intro _
            simp

/-! ## Properties of the binary64 rounding model -/

/-- Round-to-nearest on an integer is exact. -/
theorem rnde_intCast (n : ℤ) : rnde (n : ℚ) = n := by
  rw [rnde]
  simp

/-- Round-to-nearest moves a value by at most half a unit. -/
theorem abs_rnde_sub_le (x : ℚ) : |(rnde x : ℚ) - x| ≤ 1 / 2 := by
  have h0 : (⌊x⌋ : ℚ) ≤ x := Int.floor_le x
  have h1 : x < ⌊x⌋ + 1 := Int.lt_floor_add_one x
  rw [rnde]
  split_ifs with hlt heq hev
  · rw [abs_le]; constructor <;> linarith
  · rw [abs_le]; constructor <;> linarith
  · push_cast
    rw [abs_le]; constructor <;> linarith
  · push_cast
    have hge := not_lt.mp hlt
    have hne : x - ⌊x⌋ ≠ 1 / 2 := heq
    have hgt : 1 / 2 < x - ⌊x⌋ := lt_of_le_of_ne hge (Ne.symm hne)
    rw [abs_le]; constructor <;> linarith

/-- Specification of `ratFloorLog2`: `2^e ≤ q < 2^(e+1)`. -/
theorem ratFloorLog2_spec (q : ℚ) (hq : 0 < q) :
    (2 : ℚ) ^ ratFloorLog2 q ≤ q ∧ q < (2 : ℚ) ^ (ratFloorLog2 q + 1) := by
  rw [ratFloorLog2]
  split_ifs with h1
  · have hfl : (⌊q⌋ : ℚ) ≤ q := Int.floor_le q
    have hfl1 : q < ⌊q⌋ + 1 := Int.lt_floor_add_one q
    have hq1 : 1 ≤ ⌊q⌋ := Int.le_floor.mpr (by exact_mod_cast h1)
    have hnn : (0 : ℤ) ≤ ⌊q⌋ := by omega
    have hmq : ((⌊q⌋.toNat : ℚ)) = (⌊q⌋ : ℚ) := by
      exact_mod_cast Int.toNat_of_nonneg hnn
    have hm0 : ⌊q⌋.toNat ≠ 0 := by omega
    constructor
    · have hlog := Nat.pow_log_le_self 2 hm0
      rw [zpow_natCast]
      calc ((2:ℚ) ^ Nat.log 2 ⌊q⌋.toNat) ≤ (⌊q⌋.toNat : ℚ) := by exact_mod_cast hlog
        _ = (⌊q⌋ : ℚ) := hmq
        _ ≤ q := hfl
    · have hlog := Nat.lt_pow_succ_log_self (b := 2) (by norm_num) ⌊q⌋.toNat
      have hcast : ((⌊q⌋.toNat : ℚ) + 1) ≤ (2:ℚ) ^ (Nat.log 2 ⌊q⌋.toNat + 1) := by
        exact_mod_cast hlog
      rw [show (Nat.log 2 ⌊q⌋.toNat : ℤ) + 1 = ((Nat.log 2 ⌊q⌋.toNat + 1 : ℕ) : ℤ) by
        push_cast; ring]
      rw [zpow_natCast]
      calc q < (⌊q⌋ : ℚ) + 1 := hfl1
        _ = (⌊q⌋.toNat : ℚ) + 1 := by rw [hmq]
        _ ≤ _ := hcast
  · have hq1 : 1 < q⁻¹ := (one_lt_inv₀ hq).mpr (not_le.mp h1)
    have hceil : q⁻¹ ≤ (⌈q⁻¹⌉ : ℚ) := Int.le_ceil q⁻¹
    have hceil2 : (⌈q⁻¹⌉ : ℚ) < q⁻¹ + 1 := Int.ceil_lt_add_one q⁻¹
    have hc2 : 2 ≤ ⌈q⁻¹⌉ := by
      have : 1 < ⌈q⁻¹⌉ := Int.lt_ceil.mpr (by exact_mod_cast hq1)
      omega
    have hcc : ((⌈q⁻¹⌉.toNat : ℚ)) = (⌈q⁻¹⌉ : ℚ) := by
      exact_mod_cast Int.toNat_of_nonneg (by omega : (0:ℤ) ≤ ⌈q⁻¹⌉)
    have hipos : 0 < q⁻¹ := inv_pos.mpr hq
    constructor
    · have h2n : (⌈q⁻¹⌉.toNat : ℚ) ≤ 2 ^ Nat.clog 2 ⌈q⁻¹⌉.toNat := by
        exact_mod_cast Nat.le_pow_clog (by norm_num) ⌈q⁻¹⌉.toNat
      have hqi : q⁻¹ ≤ (2:ℚ) ^ Nat.clog 2 ⌈q⁻¹⌉.toNat := by
        calc q⁻¹ ≤ (⌈q⁻¹⌉ : ℚ) := hceil
          _ = (⌈q⁻¹⌉.toNat : ℚ) := hcc.symm
          _ ≤ _ := h2n
      have hinv := inv_anti₀ hipos hqi
      rw [inv_inv] at hinv
      calc (2:ℚ) ^ (-(Nat.clog 2 ⌈q⁻¹⌉.toNat : ℤ))
          = ((2:ℚ) ^ (Nat.clog 2 ⌈q⁻¹⌉.toNat : ℤ))⁻¹ := by rw [zpow_neg]
        _ = ((2:ℚ) ^ Nat.clog 2 ⌈q⁻¹⌉.toNat)⁻¹ := by rw [zpow_natCast]
        _ ≤ q := hinv
    · have hc1 : 1 < ⌈q⁻¹⌉.toNat := by omega
      have hn1 : 1 ≤ Nat.clog 2 ⌈q⁻¹⌉.toNat := Nat.clog_pos (by norm_num) (by omega)
      have hpow := Nat.pow_pred_clog_lt_self (b := 2) (by norm_num) hc1
      have hstep : (2:ℚ) ^ (Nat.clog 2 ⌈q⁻¹⌉.toNat - 1 : ℕ) < q⁻¹ := by
        have hint : (2 ^ (Nat.clog 2 ⌈q⁻¹⌉.toNat - 1 : ℕ) : ℚ)
            ≤ (⌈q⁻¹⌉.toNat : ℚ) - 1 := by
          have h' : (2 ^ (Nat.clog 2 ⌈q⁻¹⌉.toNat - 1 : ℕ) : ℕ) + 1 ≤ ⌈q⁻¹⌉.toNat := hpow
          have h'' := (Nat.cast_le (α := ℚ)).mpr h'
          push_cast at h'' ⊢
          linarith
        have hlt : (⌈q⁻¹⌉.toNat : ℚ) - 1 < q⁻¹ := by
          rw [hcc]
          linarith
        linarith
      have hlt2 := inv_strictAnti₀ (by positivity) hstep
      rw [inv_inv] at hlt2
      calc q < ((2:ℚ) ^ (Nat.clog 2 ⌈q⁻¹⌉.toNat - 1 : ℕ))⁻¹ := hlt2
        _ = (2:ℚ) ^ (-(Nat.clog 2 ⌈q⁻¹⌉.toNat : ℤ) + 1) := by
          rw [← zpow_natCast (2:ℚ) (Nat.clog 2 ⌈q⁻¹⌉.toNat - 1), ← zpow_neg]
          congr 1
          omega

/-- A value that is already on the significand grid rounds to itself. -/
theorem floatRound_eq_self (q : ℚ) (hq : 0 < q) (n : ℤ)
    (hn : q * 2 ^ ((52 : ℤ) - ratFloorLog2 q) = (n : ℚ)) :
    floatRound q = q := by
  rw [floatRound, if_neg (not_le.mpr hq), hn, rnde_intCast, ← hn]
  rw [mul_assoc, ← zpow_add₀ (by norm_num : (2:ℚ) ≠ 0)]
  rw [show (52 : ℤ) - ratFloorLog2 q + (ratFloorLog2 q - 52) = 0 by ring]
  rw [zpow_zero, mul_one]

/-- Integers below `2^53` convert to binary64 exactly (CPython's
int→float conversion is value-preserving in this range). -/
theorem floatRound_natCast (n : ℕ) (h : n < 2 ^ 53) : floatRound (n : ℚ) = n := by
  rcases Nat.eq_zero_or_pos n with rfl | hn
  · simp [floatRound]
  · have hq : (0:ℚ) < n := by exact_mod_cast hn
    obtain ⟨hlo, hhi⟩ := ratFloorLog2_spec (n : ℚ) hq
    have he52 : ratFloorLog2 (n : ℚ) ≤ 52 := by
      by_contra hcon
      push_neg at hcon
      have h2 : ((2:ℚ) ^ (53:ℤ)) ≤ 2 ^ ratFloorLog2 (n : ℚ) :=
        (zpow_le_zpow_iff_right₀ (by norm_num)).mpr (by omega)
      have hlt : (n : ℚ) < 2 ^ (53:ℤ) := by
        rw [show ((53:ℤ)) = ((53:ℕ):ℤ) from rfl, zpow_natCast]
        exact_mod_cast h
      linarith [le_trans h2 hlo]
    have hnn : (0:ℤ) ≤ 52 - ratFloorLog2 (n : ℚ) := by omega
    have hexp : ((52:ℤ) - ratFloorLog2 (n : ℚ))
        = ((52 - ratFloorLog2 (n : ℚ)).toNat : ℤ) := (Int.toNat_of_nonneg hnn).symm
    apply floatRound_eq_self _ hq (n * 2 ^ (52 - ratFloorLog2 (n : ℚ)).toNat)
    rw [hexp, zpow_natCast]
    push_cast
    rw [Int.toNat_natCast]

/-- Correctly rounded binary64 rounding moves a positive value by at most
half an ulp: `2^(e-53)` where `e = ⌊log₂ q⌋`. -/
theorem abs_floatRound_sub_le (q : ℚ) (hq : 0 < q) :
    |floatRound q - q| ≤ 2 ^ (ratFloorLog2 q - 53) := by
  rw [floatRound, if_neg (not_le.mpr hq)]
  have hq' : q = q * 2 ^ ((52:ℤ) - ratFloorLog2 q) * 2 ^ (ratFloorLog2 q - 52) := by
    rw [mul_assoc, ← zpow_add₀ (by norm_num : (2:ℚ) ≠ 0)]
    rw [show (52 : ℤ) - ratFloorLog2 q + (ratFloorLog2 q - 52) = 0 by ring]
    rw [zpow_zero, mul_one]
  have key : (rnde (q * 2 ^ ((52:ℤ) - ratFloorLog2 q)) : ℚ) * 2 ^ (ratFloorLog2 q - 52) - q
      = ((rnde (q * 2 ^ ((52:ℤ) - ratFloorLog2 q)) : ℚ)
          - q * 2 ^ ((52:ℤ) - ratFloorLog2 q)) * 2 ^ (ratFloorLog2 q - 52) := by
    rw [sub_mul]
    congr 1
  rw [key, abs_mul, abs_of_pos (a := (2:ℚ) ^ (ratFloorLog2 q - 52)) (by positivity)]
  calc |(rnde (q * 2 ^ ((52:ℤ) - ratFloorLog2 q)) : ℚ)
        - q * 2 ^ ((52:ℤ) - ratFloorLog2 q)| * 2 ^ (ratFloorLog2 q - 52)
      ≤ (1/2) * 2 ^ (ratFloorLog2 q - 52) := by
        apply mul_le_mul_of_nonneg_right (abs_rnde_sub_le _) (by positivity)
    _ = 2 ^ (ratFloorLog2 q - 53) := by
        rw [show ratFloorLog2 q - 53 = (-1) + (ratFloorLog2 q - 52) by ring,
          zpow_add₀ (by norm_num : (2:ℚ) ≠ 0)]
        norm_num

/-- Rounding a positive value yields a positive double (the harness's
values are far above the underflow-to-zero threshold). -/
theorem floatRound_pos (q : ℚ) (hq : 0 < q) : 0 < floatRound q := by
  rw [floatRound, if_neg (not_le.mpr hq)]
  have hlo := (ratFloorLog2_spec q hq).1
  have hxlarge : (2:ℚ) ^ (52:ℕ) ≤ q * 2 ^ ((52:ℤ) - ratFloorLog2 q) := by
    calc ((2:ℚ) ^ (52:ℕ)) = 2 ^ ratFloorLog2 q * 2 ^ ((52:ℤ) - ratFloorLog2 q) := by
          rw [← zpow_natCast, ← zpow_add₀ (by norm_num : (2:ℚ) ≠ 0)]
          norm_num
      _ ≤ q * 2 ^ ((52:ℤ) - ratFloorLog2 q) :=
          mul_le_mul_of_nonneg_right hlo (by positivity)
  have hr : (q * 2 ^ ((52:ℤ) - ratFloorLog2 q) - 1/2 : ℚ)
      ≤ rnde (q * 2 ^ ((52:ℤ) - ratFloorLog2 q)) := by
    have habs := abs_rnde_sub_le (q * 2 ^ ((52:ℤ) - ratFloorLog2 q))
    rw [abs_le] at habs
    linarith [habs.1]
  have h52 : (1:ℚ) ≤ (2:ℚ) ^ (52:ℕ) := by norm_num
  have hrp : (0:ℚ) < rnde (q * 2 ^ ((52:ℤ) - ratFloorLog2 q)) := by linarith
  exact mul_pos hrp (by positivity)

/-- C5 (amended): for every `ns` below `2^53` (far above any realistic
duration), `ns_to_ms` returns the exact ceiling of `ns / 10^6` — in
particular 1 for `ns = 1`, 2 for `ns = 2000000`, never rounding down and
never 0 for positive `ns`; and for *every* positive `ns`, of any size,
the result is at least 1.  (Beyond `2^53` the two binary64 roundings can
land below the exact ceiling — see the counterexample.) -/
theorem ns_to_ms_spec (ns : ℕ) :
    (ns < 2 ^ 53 → ns_to_ms ns = ⌈(ns : ℚ) / 1000000⌉) ∧
    (0 < ns → 1 ≤ ns_to_ms ns) := by
  constructor
  · intro h
    rcases Nat.eq_zero_or_pos ns with rfl | hpos
    · rw [ns_to_ms, ns_to_ms_float]
      norm_num [floatRound]
    · have hfe : floatRound (ns : ℚ) = ns := floatRound_natCast ns h
      rw [ns_to_ms, hfe, ns_to_ms_float]
      have hq : (0:ℚ) < (ns : ℚ) / 1000000 := by
        have : (0:ℚ) < ns := by exact_mod_cast hpos
        positivity
      by_cases hdvd : 1000000 ∣ ns
      · obtain ⟨m, rfl⟩ := hdvd
        have hqm : (((1000000 * m : ℕ) : ℚ)) / 1000000 = (m:ℚ) := by
          push_cast
          rw [mul_comm, mul_div_assoc]
          norm_num
        have hm53 : m < 2 ^ 53 := by
          have : m ≤ 1000000 * m := Nat.le_mul_of_pos_left m (by norm_num)
          omega
        rw [hqm, floatRound_natCast m hm53]
      · have hab : ns = 1000000 * (ns / 1000000) + ns % 1000000 := by omega
        set b := ns / 1000000 with hbdef
        set a := ns % 1000000 with hadef
        have ha1 : 1 ≤ a := by
          rcases Nat.eq_zero_or_pos a with h0 | h1
          · exact absurd (Nat.dvd_of_mod_eq_zero h0) hdvd
          · exact h1
        have ha2 : a < 1000000 := by
          rw [hadef]
          exact Nat.mod_lt _ (by norm_num)
        have hqval : ((ns : ℚ)) / 1000000 = (b : ℚ) + (a : ℚ) / 1000000 := by
          rw [hab]
          push_cast
          field_simp
          ring
        set q : ℚ := (ns : ℚ) / 1000000 with hqdef
        have he : ratFloorLog2 q ≤ 33 := by
          obtain ⟨hlo, _⟩ := ratFloorLog2_spec q hq
          by_contra hcon
          push_neg at hcon
          have h2 : ((2:ℚ) ^ (34:ℤ)) ≤ 2 ^ ratFloorLog2 q :=
            (zpow_le_zpow_iff_right₀ (by norm_num)).mpr (by omega)
          have hqlt : q < (2:ℚ) ^ (34:ℤ) := by
            rw [hqdef, div_lt_iff₀ (by norm_num : (0:ℚ) < 1000000)]
            rw [show ((34:ℤ)) = ((34:ℕ):ℤ) from rfl, zpow_natCast]
            calc (ns:ℚ) < ((2:ℕ)^53 : ℕ) := by exact_mod_cast h
              _ ≤ (2:ℚ)^(34:ℕ) * 1000000 := by norm_num
          linarith [le_trans h2 hlo]
        have herr := abs_floatRound_sub_le q hq
        have herr20 : |floatRound q - q| ≤ (2:ℚ) ^ (-20 : ℤ) := by
          refine le_trans herr ?_
          exact (zpow_le_zpow_iff_right₀ (by norm_num)).mpr (by omega)
        have h2_20 : ((2:ℚ) ^ (-20:ℤ)) = 1 / 1048576 := by norm_num
        rw [h2_20] at herr20
        rw [abs_le] at herr20
        have haQ : (1:ℚ) ≤ (a:ℚ) := by exact_mod_cast ha1
        have haQ2 : (a:ℚ) ≤ 999999 := by
          have : a ≤ 999999 := by omega
          exact_mod_cast this
        have hql : (b:ℚ) < q := by
          rw [hqval]
          have : (0:ℚ) < (a:ℚ)/1000000 := by positivity
          linarith
        have hqu : q ≤ (b:ℚ) + 1 := by
          rw [hqval]
          have : (a:ℚ)/1000000 ≤ 1 := by
            rw [div_le_one (by norm_num)]
            linarith
          linarith
        have hceilq : ⌈q⌉ = (b:ℤ) + 1 := by
          rw [Int.ceil_eq_iff]
          constructor
          · push_cast
            linarith
          · push_cast
            linarith
        have hfl1 : (b:ℚ) < floatRound q := by
          linarith [herr20.1, haQ, hqval]
        have hfl2 : floatRound q ≤ (b:ℚ) + 1 := by
          linarith [herr20.2, haQ2, hqval]
        have hceilf : ⌈floatRound q⌉ = (b:ℤ) + 1 := by
          rw [Int.ceil_eq_iff]
          constructor
          · push_cast
            linarith [hfl1]
          · push_cast
            linarith [hfl2]
        rw [hceilf, hceilq]
  · intro hpos
    rw [ns_to_ms, ns_to_ms_float]
    have h1 : 0 < floatRound (ns : ℚ) := floatRound_pos _ (by exact_mod_cast hpos)
    have h2 : (0:ℚ) < floatRound (ns : ℚ) / 1000000 := by positivity
    have h3 : 0 < floatRound (floatRound (ns : ℚ) / 1000000) := floatRound_pos _ h2
    have := Int.ceil_pos.mpr h3
    omega

/-- C5 (counterexample): at `ns = 17179869184000001` (= 2^34·10^6 + 1)
the conversion does *not* return the exact ceiling and rounds down:
CPython's int→float conversion rounds the odd integer to the even
neighbour `17179869184000000` (ties to even at 2-ulp spacing), the
division by `1e6` is then exact at `2^34`, and `math.ceil` returns
`17179869184` — one less than the true ceiling `17179869185`. -/
theorem ns_to_ms_rounds_down_counterexample :
    ns_to_ms 17179869184000001 = 17179869184 ∧
    ⌈((17179869184000001 : ℕ) : ℚ) / 1000000⌉ = 17179869185 := by
  have hl : Nat.log 2 17179869184000001 = 53 :=
    Nat.log_eq_of_pow_le_of_lt_pow (m := 53) (by norm_num) (by norm_num)
  have hlog : ratFloorLog2 ((17179869184000001 : ℕ) : ℚ) = 53 := by
    rw [ratFloorLog2, if_pos (by norm_num : (1:ℚ) ≤ ((17179869184000001 : ℕ) : ℚ))]
    rw [Int.floor_natCast]
    norm_num [show Int.toNat 17179869184000001 = 17179869184000001 from rfl, hl]
  have hround1 : floatRound ((17179869184000001 : ℕ) : ℚ) = 17179869184000000 := by
    rw [floatRound, if_neg (by norm_num), hlog]
    have hx : ((17179869184000001 : ℕ) : ℚ) * 2 ^ ((52 : ℤ) - 53)
        = 8589934592000000 + 1/2 := by norm_num
    rw [hx]
    have hfl2 : ⌊(8589934592000000 + 1/2 : ℚ)⌋ = 8589934592000000 := by
      rw [Int.floor_eq_iff]
      constructor
      · norm_num
      · norm_num
    rw [rnde, hfl2]
    norm_num
  constructor
  · rw [ns_to_ms, ns_to_ms_float, hround1]
    have harg : ((17179869184000000 : ℚ)) / 1000000 = ((17179869184 : ℕ) : ℚ) := by
      norm_num
    rw [harg, floatRound_natCast 17179869184 (by norm_num)]
    norm_num
  · rw [Int.ceil_eq_iff]
    constructor
    · push_cast
      norm_num
    · push_cast
      norm_num

theorem ns_to_ms_spec_witness :
    ((2000000 : ℕ) < 2 ^ 53 ∧ ns_to_ms 2000000 = ⌈((2000000 : ℕ) : ℚ) / 1000000⌉) ∧
    ((0 : ℕ) < 2000000 ∧ 1 ≤ ns_to_ms 2000000) ∧
    ⌈((2000000 : ℕ) : ℚ) / 1000000⌉ = 2 :=
  ⟨⟨by norm_num, (ns_to_ms_spec 2000000).1 (by norm_num)⟩,
   ⟨by norm_num, (ns_to_ms_spec 2000000).2 (by norm_num)⟩,
   by norm_num⟩

theorem load_ops_attach_exact_samples_witness :
    ((Run.mk 1 "h" "l" "t" "b" [7])
        ∈ load_all_runs ⟨[⟨1, "h", "l", "t", "b"⟩], [(1, 7), (2, 9)]⟩) ∧
    (Run.mk 1 "h" "l" "t" "b" [7]).samples
      = samplesOf ⟨[⟨1, "h", "l", "t", "b"⟩], [(1, 7), (2, 9)]⟩
          (Run.mk 1 "h" "l" "t" "b" [7]).id :=
  ⟨by decide,
   (load_ops_attach_exact_samples ⟨[⟨1, "h", "l", "t", "b"⟩], [(1, 7), (2, 9)]⟩ []).1
     _ (by decide)⟩
